import Mathlib

/-!
Verification of the incremental stock-archive synchronizer
(`fetch_stocks.py`).

The embedding models a pandas DataFrame as a `Frame`: an optional timezone
attached to the whole index (pandas `DatetimeIndex.tz`), a list of column
names, and a list of rows.  A row (`Row`) is one Bar: a wall-clock timestamp
(an integer, seconds; the zone is carried by the frame) and the numeric
field values, one per column.

The operations are translated line by line from `fetch_and_update`:
  * `dedupRowsLast`   — `df[~df.index.duplicated(keep='last')]`
  * `dedupColsFirst`  — `df.loc[:, ~df.columns.duplicated()]` (keep first)
  * `cleanRows`, `cleanCols` — the `if ...has_duplicates` guards
  * `alignTz`         — the `tz_localize` block (lines 95-100 / 126-131)
  * `mergeFrames`     — `pd.concat` followed by the keep-last dedup
                        (lines 102-103 / 133-134)
  * `reconcile`       — the Archive-Store reconcile of the spec: clean both
                        inputs, align timezones, merge
  * `csvWriteInPlace` — `to_csv`: truncate the target and stream rows; a
                        failure after k rows leaves the first k rows visible
  * `runTask`         — one (symbol, interval) iteration of the loop in
                        `fetch_and_update`, with the provider (`yf.download`)
                        and the write outcome passed in as oracles.  The
                        result records the file state afterwards, the
                        requests issued, whether an error was printed, and
                        whether an exception escaped the task.
-/

structure Row where
  ts : Int
  vals : List Int
deriving DecidableEq

structure Frame where
  tz : Option Int
  cols : List String
  rows : List Row
deriving DecidableEq

def memTs (l : List Row) (t : Int) : Bool :=
  l.any (fun r => r.ts == t)

/-- `df[~df.index.duplicated(keep='last')]`: keep, in order, each row whose
timestamp does not occur again later in the list. -/
def dedupRowsLast : List Row → List Row
  | [] => []
  | r :: rest => if memTs rest r.ts then dedupRowsLast rest else r :: dedupRowsLast rest

/-- `df.index.has_duplicates`. -/
def hasDupTs : List Row → Bool
  | [] => false
  | r :: rest => memTs rest r.ts || hasDupTs rest

/-- `df.columns.has_duplicates`. -/
def hasDupCols : List String → Bool
  | [] => false
  | c :: rest => rest.contains c || hasDupCols rest

/-- Mask of column positions kept by `~df.columns.duplicated()`
(first occurrence of each name is kept). -/
def keepMask (seen : List String) : List String → List Bool
  | [] => []
  | c :: rest => (!seen.contains c) :: keepMask (c :: seen) rest

def applyMask {α : Type} : List Bool → List α → List α
  | _, [] => []
  | [], _ => []
  | b :: bs, x :: xs => if b then x :: applyMask bs xs else applyMask bs xs

/-- `df.loc[:, ~df.columns.duplicated()]`. -/
def dedupColsFirst (f : Frame) : Frame :=
  let m := keepMask [] f.cols
  { f with cols := applyMask m f.cols,
           rows := f.rows.map (fun r => { r with vals := applyMask m r.vals }) }

/-- Lines 54-55 / 89-90 / 120-121 / 150-151 of the source. -/
def cleanRows (f : Frame) : Frame :=
  if hasDupTs f.rows then { f with rows := dedupRowsLast f.rows } else f

/-- Lines 56-57 / 91-92 / 122-123 / 152-153 of the source. -/
def cleanCols (f : Frame) : Frame :=
  if hasDupCols f.cols then dedupColsFirst f else f

def clean (f : Frame) : Frame := cleanCols (cleanRows f)

/-- Lines 95-100: if exactly one side is timezone-naive, `tz_localize` the
naive side to the aware side's zone; guarded by `if not existing_df.empty`. -/
def alignTz (e n : Frame) : Frame × Frame :=
  if e.rows.isEmpty then (e, n)
  else
    match e.tz, n.tz with
    | none, some z => ({ e with tz := some z }, n)
    | some z, none => (e, { n with tz := some z })
    | _, _ => (e, n)

/-- `pd.concat([existing_df, new_data])` followed by
`combined[~combined.index.duplicated(keep='last')]` (lines 102-103). -/
def mergeFrames (e n : Frame) : Frame :=
  { tz := if e.rows.isEmpty then n.tz else e.tz,
    cols := if e.rows.isEmpty then n.cols else e.cols,
    rows := dedupRowsLast (e.rows ++ n.rows) }

def mergeStep (e n : Frame) : Frame :=
  let p := alignTz e n
  mergeFrames p.1 p.2

/-- The Archive Store `reconcile` of the spec: column dedup and keep-last
timestamp dedup of both inputs (lines 54-57 and 89-92), timezone
normalization, then concat and keep-last dedup (lines 95-103). -/
def reconcile (e n : Frame) : Frame := mergeStep (clean e) (clean n)

/-- `true` unless both frames carry zone info for different zones (the code
only ever merges frames whose zones agree after `alignTz`). -/
def tzCompatB (e n : Frame) : Bool :=
  match e.tz, n.tz with
  | some a, some b => a == b
  | _, _ => true

/-- The instants denoted by a frame's timestamps: for an aware frame the
wall clock minus the zone offset, for a naive frame the wall clock itself. -/
def instantsOf (f : Frame) : List Int :=
  f.rows.map (fun r => match f.tz with | some z => r.ts - z | none => r.ts)

/-- A provider request: `yf.download(..., start=...)` for coarse intervals,
`yf.download(..., period=...)` otherwise. -/
inductive Req where
  | startQuery (start : Int) (interval : String)
  | periodQuery (period : String) (interval : String)
deriving DecidableEq

/-- The persisted per-(symbol, interval) CSV: parses to a frame, or is
unreadable. -/
inductive FileContent where
  | ok (f : Frame)
  | corrupt
deriving DecidableEq

structure TaskOut where
  file : Option FileContent
  reqs : List Req
  reported : Bool
  raised : Bool
deriving DecidableEq

def oneDay : Int := 86400

/-- Line 78: `interval in ['1d', '5d', '1wk', '1mo', '3mo']`. -/
def coarseIntervals : List String := ["1d", "5d", "1wk", "1mo", "3mo"]

/-- `INTERVAL_LIMITS` of the source. -/
def INTERVAL_LIMITS : List (String × String) :=
  [("1m", "7d"), ("2m", "60d"), ("5m", "60d"), ("15m", "60d"), ("30m", "60d"),
   ("60m", "730d"), ("90m", "60d"), ("1h", "730d"), ("1d", "max"), ("5d", "max"),
   ("1wk", "max"), ("1mo", "max"), ("3mo", "max")]

/-- `combined.to_csv(csv_file)`: the file is truncated and the rows are
streamed into it in place.  `failAt = some k` models an I/O failure after k
complete rows: the first k rows are visible, the call reports failure.
`failAt = none` is a successful write. -/
def csvWriteInPlace (f : Frame) (failAt : Option Nat) : FileContent × Bool :=
  match failAt with
  | none => (.ok f, true)
  | some k => (.ok { f with rows := f.rows.take k }, false)

def emptyFrame : Frame := { tz := none, cols := [], rows := [] }

/-- Lines 51-66: read the CSV, clean it, take the last timestamp; on a
read error fall back to `last_date = None` and an empty frame, printing a
warning.  Returns (last_date, existing_df, warning printed). -/
def loadContent : FileContent → Option Int × Frame × Bool
  | .corrupt => (none, emptyFrame, true)
  | .ok df =>
      let c := clean df
      ((c.rows.getLast?).map Row.ts, c, false)

/-- Lines 156-163: no file yet — fetch the maximum period and save the
response verbatim (note: no duplicate cleaning in this branch). -/
def firstFetch (interval maxPeriod : String) (fetch : Req → Except Unit Frame)
    (failAt : Option Nat) : TaskOut :=
  match fetch (Req.periodQuery maxPeriod interval) with
  | .error _ =>
      { file := none, reqs := [Req.periodQuery maxPeriod interval],
        reported := true, raised := false }
  | .ok data =>
      if data.rows.isEmpty then
        { file := none, reqs := [Req.periodQuery maxPeriod interval],
          reported := false, raised := false }
      else
        { file := some (csvWriteInPlace data failAt).1,
          reqs := [Req.periodQuery maxPeriod interval],
          reported := !(csvWriteInPlace data failAt).2, raised := false }

/-- Lines 78-106: daily-or-coarser update from `last_date + 1 day`. -/
def coarseUpdate (interval : String) (nowUtc localOff : Int)
    (fetch : Req → Except Unit Frame) (failAt : Option Nat)
    (file : Option FileContent) (existing : Frame) (lastT : Int) : TaskOut :=
  if lastT + oneDay < nowUtc + (existing.tz.getD localOff) then
    match fetch (Req.startQuery (lastT + oneDay) interval) with
    | .error _ =>
        { file := file, reqs := [Req.startQuery (lastT + oneDay) interval],
          reported := true, raised := false }
    | .ok nd =>
        if nd.rows.isEmpty then
          { file := file, reqs := [Req.startQuery (lastT + oneDay) interval],
            reported := false, raised := false }
        else
          { file := some (csvWriteInPlace (mergeStep existing (clean nd)) failAt).1,
            reqs := [Req.startQuery (lastT + oneDay) interval],
            reported := !(csvWriteInPlace (mergeStep existing (clean nd)) failAt).2,
            raised := false }
  else
    { file := file, reqs := [], reported := false, raised := false }

/-- Lines 107-140: intraday rolling-window update (always re-fetch the
whole permitted window and merge). -/
def rollingUpdate (interval maxPeriod : String)
    (fetch : Req → Except Unit Frame) (failAt : Option Nat)
    (file : Option FileContent) (existing : Frame) : TaskOut :=
  match fetch (Req.periodQuery maxPeriod interval) with
  | .error _ =>
      { file := file, reqs := [Req.periodQuery maxPeriod interval],
        reported := true, raised := false }
  | .ok nd =>
      if nd.rows.isEmpty then
        { file := file, reqs := [Req.periodQuery maxPeriod interval],
          reported := false, raised := false }
      else
        { file := some (csvWriteInPlace (mergeStep existing (clean nd)) failAt).1,
          reqs := [Req.periodQuery maxPeriod interval],
          reported := !(csvWriteInPlace (mergeStep existing (clean nd)) failAt).2,
          raised := false }

/-- Lines 142-154: the file exists but is empty or unreadable — fetch the
maximum period, clean the response and overwrite. -/
def refetchFull (interval maxPeriod : String)
    (fetch : Req → Except Unit Frame) (failAt : Option Nat)
    (file : Option FileContent) (rerr : Bool) : TaskOut :=
  match fetch (Req.periodQuery maxPeriod interval) with
  | .error _ =>
      { file := file, reqs := [Req.periodQuery maxPeriod interval],
        reported := true, raised := false }
  | .ok data =>
      if data.rows.isEmpty then
        { file := file, reqs := [Req.periodQuery maxPeriod interval],
          reported := rerr, raised := false }
      else
        { file := some (csvWriteInPlace (clean data) failAt).1,
          reqs := [Req.periodQuery maxPeriod interval],
          reported := rerr || !(csvWriteInPlace (clean data) failAt).2,
          raised := false }

/-- Lines 68 and 78/107: dispatch on `last_date` and on the interval class. -/
def dispatchLoaded (interval maxPeriod : String) (nowUtc localOff : Int)
    (fetch : Req → Except Unit Frame) (failAt : Option Nat)
    (file : Option FileContent) : Option Int × Frame × Bool → TaskOut
  | (some lastT, existing, _) =>
      if coarseIntervals.contains interval then
        coarseUpdate interval nowUtc localOff fetch failAt file existing lastT
      else
        rollingUpdate interval maxPeriod fetch failAt file existing
  | (none, _, rerr) =>
      refetchFull interval maxPeriod fetch failAt file rerr

/-- One iteration of the per-interval loop of `fetch_and_update`
(lines 45-167).  The surrounding `try/except` prints and swallows every
exception, so the function is total and `raised` is the event of an
exception escaping to the caller of the task. -/
def runTask (interval maxPeriod : String) (nowUtc localOff : Int)
    (fetch : Req → Except Unit Frame) (failAt : Option Nat)
    (file : Option FileContent) : TaskOut :=
  match file with
  | none => firstFetch interval maxPeriod fetch failAt
  | some content =>
      dispatchLoaded interval maxPeriod nowUtc localOff fetch failAt file
        (loadContent content)

def findTs (l : List Row) (t : Int) : Option Row :=
  l.find? (fun r => r.ts == t)

def sortedTs (l : List Row) : Prop :=
  l.Pairwise (fun a b => a.ts < b.ts)

instance decSortedTs (l : List Row) : Decidable (sortedTs l) :=
  inferInstanceAs (Decidable (l.Pairwise (fun (a b : Row) => a.ts < b.ts)))

/-! ### Lemmas about keep-last timestamp deduplication -/

theorem memTs_append (l1 l2 : List Row) (t : Int) :
    memTs (l1 ++ l2) t = (memTs l1 t || memTs l2 t) := by
  simp [memTs, List.any_append]

theorem memTs_cons (r : Row) (l : List Row) (t : Int) :
    memTs (r :: l) t = ((r.ts == t) || memTs l t) := by
  simp [memTs]

theorem memTs_of_mem {r : Row} {l : List Row} (h : r ∈ l) : memTs l r.ts = true := by
  simp only [memTs, List.any_eq_true]
  exact ⟨r, h, by simp⟩

theorem mem_of_mem_dedupRowsLast {r : Row} : ∀ {l : List Row},
    r ∈ dedupRowsLast l → r ∈ l
  | [], h => by simp [dedupRowsLast] at h
  | s :: rest, h => by
      by_cases hm : memTs rest s.ts
      · simp only [dedupRowsLast, hm, if_pos] at h
        exact List.mem_cons_of_mem s (mem_of_mem_dedupRowsLast h)
      · simp only [dedupRowsLast, hm, if_neg] at h
        rcases List.mem_cons.1 h with h | h
        · exact h ▸ List.mem_cons_self s rest
        · exact List.mem_cons_of_mem s (mem_of_mem_dedupRowsLast h)

theorem memTs_dedupRowsLast : ∀ (l : List Row) (t : Int),
    memTs (dedupRowsLast l) t = memTs l t
  | [], _ => rfl
  | r :: rest, t => by
      rw [memTs_cons]
      by_cases hm : memTs rest r.ts
      · rw [show dedupRowsLast (r :: rest) = dedupRowsLast rest by
          simp [dedupRowsLast, hm]]
        rw [memTs_dedupRowsLast rest t]
        by_cases ht : r.ts = t
        · subst ht
          simp [hm]
        · have : (r.ts == t) = false := by simp [ht]
          rw [this, Bool.false_or]
      · rw [show dedupRowsLast (r :: rest) = r :: dedupRowsLast rest by
          simp [dedupRowsLast, hm]]
        rw [memTs_cons, memTs_dedupRowsLast rest t]

theorem hasDupTs_dedupRowsLast : ∀ (l : List Row),
    hasDupTs (dedupRowsLast l) = false
  | [] => rfl
  | r :: rest => by
      by_cases hm : memTs rest r.ts
      · rw [show dedupRowsLast (r :: rest) = dedupRowsLast rest by
          simp [dedupRowsLast, hm]]
        exact hasDupTs_dedupRowsLast rest
      · rw [show dedupRowsLast (r :: rest) = r :: dedupRowsLast rest by
          simp [dedupRowsLast, hm]]
        show (memTs (dedupRowsLast rest) r.ts || hasDupTs (dedupRowsLast rest)) = false
        rw [memTs_dedupRowsLast rest r.ts, hasDupTs_dedupRowsLast rest]
        simp [hm]

theorem dedupRowsLast_of_noDup : ∀ {l : List Row},
    hasDupTs l = false → dedupRowsLast l = l
  | [], _ => rfl
  | r :: rest, h => by
      have h2 : (memTs rest r.ts || hasDupTs rest) = false := h
      rw [Bool.or_eq_false_iff] at h2
      rw [show dedupRowsLast (r :: rest) = r :: dedupRowsLast rest by
          simp [dedupRowsLast, h2.1]]
      rw [dedupRowsLast_of_noDup h2.2]

theorem dedupRowsLast_idem (l : List Row) :
    dedupRowsLast (dedupRowsLast l) = dedupRowsLast l :=
  dedupRowsLast_of_noDup (hasDupTs_dedupRowsLast l)

theorem dedupRowsLast_append : ∀ (l1 l2 : List Row),
    dedupRowsLast (l1 ++ l2)
      = (dedupRowsLast l1).filter (fun r => !memTs l2 r.ts) ++ dedupRowsLast l2
  | [], l2 => by simp [dedupRowsLast]
  | r :: l1, l2 => by
      rw [List.cons_append]
      by_cases h1 : memTs l1 r.ts
      · have hm : memTs (l1 ++ l2) r.ts = true := by
          rw [memTs_append, h1, Bool.true_or]
        rw [show dedupRowsLast (r :: (l1 ++ l2)) = dedupRowsLast (l1 ++ l2) by
              simp [dedupRowsLast, hm],
            show dedupRowsLast (r :: l1) = dedupRowsLast l1 by
              simp [dedupRowsLast, h1]]
        exact dedupRowsLast_append l1 l2
      · by_cases h2 : memTs l2 r.ts
        · have hm : memTs (l1 ++ l2) r.ts = true := by
            rw [memTs_append, h2, Bool.or_true]
          rw [show dedupRowsLast (r :: (l1 ++ l2)) = dedupRowsLast (l1 ++ l2) by
                simp [dedupRowsLast, hm],
              show dedupRowsLast (r :: l1) = r :: dedupRowsLast l1 by
                simp [dedupRowsLast, h1],
              List.filter_cons]
          simp only [h2, Bool.not_true, Bool.false_eq_true, if_false]
          exact dedupRowsLast_append l1 l2
        · have hm : memTs (l1 ++ l2) r.ts = false := by
            rw [memTs_append]
            simp only [Bool.or_eq_false_iff]
            constructor
            · exact Bool.not_eq_true _ ▸ (by simpa using h1)
            · exact Bool.not_eq_true _ ▸ (by simpa using h2)
          rw [show dedupRowsLast (r :: (l1 ++ l2)) = r :: dedupRowsLast (l1 ++ l2) by
                simp [dedupRowsLast, hm],
              show dedupRowsLast (r :: l1) = r :: dedupRowsLast l1 by
                simp [dedupRowsLast, h1],
              List.filter_cons]
          simp only [h2, Bool.not_false, if_true, Bool.false_eq_true]
          rw [List.cons_append, dedupRowsLast_append l1 l2]

theorem dedupRowsLast_eq_nil_iff : ∀ {l : List Row},
    dedupRowsLast l = [] ↔ l = []
  | [] => by simp [dedupRowsLast]
  | r :: rest => by
      constructor
      · intro h
        by_cases hm : memTs rest r.ts
        · rw [show dedupRowsLast (r :: rest) = dedupRowsLast rest by
            simp [dedupRowsLast, hm]] at h
          have : rest = [] := dedupRowsLast_eq_nil_iff.1 h
          subst this
          simp [memTs] at hm
        · rw [show dedupRowsLast (r :: rest) = r :: dedupRowsLast rest by
            simp [dedupRowsLast, hm]] at h
          cases h
      · intro h; cases h

theorem filter_not_memTs_self (l : List Row) :
    (dedupRowsLast l).filter (fun r => !memTs l r.ts) = [] := by
  rw [List.filter_eq_nil_iff]
  intro r hr
  rw [memTs_of_mem (mem_of_mem_dedupRowsLast hr)]
  simp

theorem dedup_merge_idem (x y : List Row) :
    dedupRowsLast (dedupRowsLast (x ++ y) ++ y) = dedupRowsLast (x ++ y) := by
  rw [dedupRowsLast_append (dedupRowsLast (x ++ y)) y, dedupRowsLast_idem,
      dedupRowsLast_append x y, List.filter_append, List.filter_filter]
  have h1 : ((dedupRowsLast x).filter
      fun r => !memTs y r.ts && !memTs y r.ts) = (dedupRowsLast x).filter
      fun r => !memTs y r.ts := by
    apply List.filter_congr
    intro r _
    rw [Bool.and_self]
  rw [h1, filter_not_memTs_self y]
  rw [List.append_nil, ← dedupRowsLast_append x y]

/-! ### Lemmas about column deduplication and cleaning -/

/-- The list of column names kept by `~df.columns.duplicated()`. -/
def keptCols (seen : List String) : List String → List String
  | [] => []
  | c :: rest => if seen.contains c then keptCols (c :: seen) rest else c :: keptCols (c :: seen) rest

theorem applyMask_keepMask : ∀ (cs : List String) (seen : List String),
    applyMask (keepMask seen cs) cs = keptCols seen cs
  | [], _ => rfl
  | c :: rest, seen => by
      by_cases h : seen.contains c
      · simp [keepMask, applyMask, keptCols, h, applyMask_keepMask rest (c :: seen)]
      · simp [keepMask, applyMask, keptCols, h, applyMask_keepMask rest (c :: seen)]

theorem contains_eq_false_of_mem_keptCols : ∀ {cs seen : List String} {x : String},
    x ∈ keptCols seen cs → seen.contains x = false
  | [], _, _, h => by simp [keptCols] at h
  | c :: rest, seen, x, h => by
      by_cases hc : seen.contains c
      · rw [keptCols, if_pos hc] at h
        have := contains_eq_false_of_mem_keptCols h
        rw [List.contains_cons] at this
        exact (Bool.or_eq_false_iff.1 this).2
      · rw [keptCols, if_neg hc] at h
        rcases List.mem_cons.1 h with h | h
        · subst h
          exact Bool.not_eq_true _ ▸ hc
        · have := contains_eq_false_of_mem_keptCols h
          rw [List.contains_cons] at this
          exact (Bool.or_eq_false_iff.1 this).2

theorem hasDupCols_keptCols : ∀ (cs seen : List String),
    hasDupCols (keptCols seen cs) = false
  | [], _ => rfl
  | c :: rest, seen => by
      by_cases hc : seen.contains c
      · rw [keptCols, if_pos hc]
        exact hasDupCols_keptCols rest (c :: seen)
      · rw [keptCols, if_neg hc]
        show ((keptCols (c :: seen) rest).contains c || hasDupCols (keptCols (c :: seen) rest)) = false
        rw [hasDupCols_keptCols rest (c :: seen), Bool.or_false]
        by_cases hmem : (keptCols (c :: seen) rest).contains c
        · exfalso
          have hc2 : c ∈ keptCols (c :: seen) rest := by
            rcases List.contains_iff_exists_mem_beq.mp hmem with ⟨y, hy, hbeq⟩
            obtain rfl : c = y := beq_iff_eq.1 hbeq
            exact hy
          have := contains_eq_false_of_mem_keptCols hc2
          rw [List.contains_cons] at this
          simp at this
        · exact Bool.not_eq_true _ ▸ hmem

theorem hasDupCols_dedupColsFirst (f : Frame) :
    hasDupCols (dedupColsFirst f).cols = false := by
  show hasDupCols (applyMask (keepMask [] f.cols) f.cols) = false
  rw [applyMask_keepMask]
  exact hasDupCols_keptCols f.cols []

theorem hasDupCols_cleanCols (f : Frame) :
    hasDupCols (cleanCols f).cols = false := by
  unfold cleanCols
  by_cases h : hasDupCols f.cols
  · rw [if_pos h]
    exact hasDupCols_dedupColsFirst f
  · rw [if_neg h]
    exact Bool.not_eq_true _ ▸ h

theorem cleanRows_cols (f : Frame) : (cleanRows f).cols = f.cols := by
  unfold cleanRows
  split <;> rfl

theorem cleanRows_tz (f : Frame) : (cleanRows f).tz = f.tz := by
  unfold cleanRows
  split <;> rfl

theorem cleanCols_tz (f : Frame) : (cleanCols f).tz = f.tz := by
  unfold cleanCols
  split <;> rfl

theorem clean_tz (f : Frame) : (clean f).tz = f.tz := by
  unfold clean
  rw [cleanCols_tz, cleanRows_tz]

theorem hasDupCols_clean (f : Frame) : hasDupCols (clean f).cols = false :=
  hasDupCols_cleanCols (cleanRows f)

theorem map_ts_map_preserve (g : Row → Row) (hg : ∀ r, (g r).ts = r.ts)
    (l : List Row) : (l.map g).map Row.ts = l.map Row.ts := by
  rw [List.map_map]
  exact List.map_congr_left (fun r _ => hg r)

theorem memTs_map_preserve (g : Row → Row) (hg : ∀ r, (g r).ts = r.ts) :
    ∀ (l : List Row) (t : Int), memTs (l.map g) t = memTs l t
  | [], _ => rfl
  | r :: rest, t => by
      rw [List.map_cons, memTs_cons, memTs_cons, hg r,
        memTs_map_preserve g hg rest t]

theorem hasDupTs_map_preserve (g : Row → Row) (hg : ∀ r, (g r).ts = r.ts) :
    ∀ (l : List Row), hasDupTs (l.map g) = hasDupTs l
  | [] => rfl
  | r :: rest => by
      show (memTs (rest.map g) (g r).ts || hasDupTs (rest.map g))
        = (memTs rest r.ts || hasDupTs rest)
      rw [hg r, memTs_map_preserve g hg rest r.ts, hasDupTs_map_preserve g hg rest]

theorem dedupColsFirst_rows_ts (f : Frame) :
    (dedupColsFirst f).rows.map Row.ts = f.rows.map Row.ts := by
  show (f.rows.map (fun r =>
      { r with vals := applyMask (keepMask [] f.cols) r.vals })).map Row.ts
    = f.rows.map Row.ts
  exact map_ts_map_preserve
    (fun r => { r with vals := applyMask (keepMask [] f.cols) r.vals })
    (fun _ => rfl) f.rows

theorem hasDupTs_dedupColsFirst (f : Frame) :
    hasDupTs (dedupColsFirst f).rows = hasDupTs f.rows := by
  show hasDupTs (f.rows.map (fun r =>
      { r with vals := applyMask (keepMask [] f.cols) r.vals })) = hasDupTs f.rows
  exact hasDupTs_map_preserve
    (fun r => { r with vals := applyMask (keepMask [] f.cols) r.vals })
    (fun _ => rfl) f.rows

theorem hasDupTs_cleanRows (f : Frame) : hasDupTs (cleanRows f).rows = false := by
  unfold cleanRows
  by_cases h : hasDupTs f.rows
  · rw [if_pos h]
    exact hasDupTs_dedupRowsLast f.rows
  · rw [if_neg h]
    exact Bool.not_eq_true _ ▸ h

theorem hasDupTs_cleanCols (f : Frame) :
    hasDupTs (cleanCols f).rows = hasDupTs f.rows := by
  unfold cleanCols
  split
  · exact hasDupTs_dedupColsFirst f
  · rfl

theorem hasDupTs_clean (f : Frame) : hasDupTs (clean f).rows = false := by
  unfold clean
  rw [hasDupTs_cleanCols, hasDupTs_cleanRows]

theorem cleanRows_eq_self {f : Frame} (h : hasDupTs f.rows = false) :
    cleanRows f = f := by
  unfold cleanRows
  rw [h]
  rfl

theorem cleanCols_eq_self {f : Frame} (h : hasDupCols f.cols = false) :
    cleanCols f = f := by
  unfold cleanCols
  rw [h]
  rfl

theorem clean_idem (f : Frame) : clean (clean f) = clean f := by
  show cleanCols (cleanRows (clean f)) = clean f
  rw [cleanRows_eq_self (hasDupTs_clean f), cleanCols_eq_self (hasDupCols_clean f)]

theorem memTs_cleanRows (f : Frame) (t : Int) :
    memTs (cleanRows f).rows t = memTs f.rows t := by
  unfold cleanRows
  split
  · exact memTs_dedupRowsLast f.rows t
  · rfl

theorem memTs_dedupColsFirst (f : Frame) (t : Int) :
    memTs (dedupColsFirst f).rows t = memTs f.rows t := by
  show memTs (f.rows.map (fun r =>
      { r with vals := applyMask (keepMask [] f.cols) r.vals })) t = memTs f.rows t
  exact memTs_map_preserve
    (fun r => { r with vals := applyMask (keepMask [] f.cols) r.vals })
    (fun _ => rfl) f.rows t

theorem memTs_cleanCols (f : Frame) (t : Int) :
    memTs (cleanCols f).rows t = memTs f.rows t := by
  unfold cleanCols
  split
  · exact memTs_dedupColsFirst f t
  · rfl

theorem memTs_clean (f : Frame) (t : Int) :
    memTs (clean f).rows t = memTs f.rows t := by
  unfold clean
  rw [memTs_cleanCols, memTs_cleanRows]

/-! ### Lemmas about timezone alignment and the merge -/

theorem isEmpty_false_of_ne_nil {l : List Row} (h : l ≠ []) : l.isEmpty = false := by
  cases l
  · exact absurd rfl h
  · rfl

theorem alignTz_fst_rows (e n : Frame) : (alignTz e n).1.rows = e.rows := by
  unfold alignTz
  split
  · rfl
  · split <;> rfl

theorem alignTz_snd_rows (e n : Frame) : (alignTz e n).2.rows = n.rows := by
  unfold alignTz
  split
  · rfl
  · split <;> rfl

theorem alignTz_fst_cols (e n : Frame) : (alignTz e n).1.cols = e.cols := by
  unfold alignTz
  split
  · rfl
  · split <;> rfl

theorem alignTz_snd_cols (e n : Frame) : (alignTz e n).2.cols = n.cols := by
  unfold alignTz
  split
  · rfl
  · split <;> rfl

theorem mergeStep_rows (e n : Frame) :
    (mergeStep e n).rows = dedupRowsLast (e.rows ++ n.rows) := by
  show dedupRowsLast ((alignTz e n).1.rows ++ (alignTz e n).2.rows)
    = dedupRowsLast (e.rows ++ n.rows)
  rw [alignTz_fst_rows, alignTz_snd_rows]

theorem mergeStep_cols (e n : Frame) :
    (mergeStep e n).cols = if e.rows.isEmpty then n.cols else e.cols := by
  show (if (alignTz e n).1.rows.isEmpty then (alignTz e n).2.cols
      else (alignTz e n).1.cols)
    = if e.rows.isEmpty then n.cols else e.cols
  rw [alignTz_fst_rows, alignTz_fst_cols, alignTz_snd_cols]

theorem hasDupTs_mergeStep (e n : Frame) :
    hasDupTs (mergeStep e n).rows = false := by
  rw [mergeStep_rows]
  exact hasDupTs_dedupRowsLast _

theorem clean_mergeStep (e n : Frame) :
    clean (mergeStep (clean e) (clean n)) = mergeStep (clean e) (clean n) := by
  show cleanCols (cleanRows (mergeStep (clean e) (clean n)))
    = mergeStep (clean e) (clean n)
  rw [cleanRows_eq_self (hasDupTs_mergeStep _ _)]
  apply cleanCols_eq_self
  rw [mergeStep_cols]
  by_cases h : (clean e).rows.isEmpty
  · rw [if_pos h]
    exact hasDupCols_clean n
  · rw [if_neg h]
    exact hasDupCols_clean e

/-- The merge absorbs a repeat of the same incoming frame, provided the
incoming frame has no duplicate timestamps (the code always dedups the
incoming frame first). -/
theorem mergeStep_merge_self (a b : Frame) (hb : hasDupTs b.rows = false) :
    mergeStep (mergeStep a b) b = mergeStep a b := by
  have hdb : dedupRowsLast b.rows = b.rows := dedupRowsLast_of_noDup hb
  by_cases ha : a.rows.isEmpty
  · have ha2 : a.rows = [] := List.isEmpty_iff.1 ha
    have hR : mergeStep a b = ⟨b.tz, b.cols, b.rows⟩ := by
      simp [mergeStep, alignTz, mergeFrames, ha, ha2, hdb]
    rw [hR]
    by_cases hbr : b.rows.isEmpty
    · have hbr2 : b.rows = [] := List.isEmpty_iff.1 hbr
      simp [mergeStep, alignTz, mergeFrames, hbr2, dedupRowsLast]
    · have hbb : dedupRowsLast (b.rows ++ b.rows) = b.rows := by
        have h0 := dedup_merge_idem [] b.rows
        rw [List.nil_append, hdb] at h0
        exact h0
      cases hbt : b.tz with
      | none => simp [mergeStep, alignTz, mergeFrames, hbr, hbt, hbb]
      | some z => simp [mergeStep, alignTz, mergeFrames, hbr, hbt, hbb]
  · have hRne : dedupRowsLast (a.rows ++ b.rows) ≠ [] := by
      intro h
      have h2 := dedupRowsLast_eq_nil_iff.1 h
      rw [(List.append_eq_nil).1 h2 |>.1] at ha
      exact ha rfl
    have hRe : (dedupRowsLast (a.rows ++ b.rows)).isEmpty = false :=
      isEmpty_false_of_ne_nil hRne
    have hmm := dedup_merge_idem a.rows b.rows
    cases hat : a.tz with
    | none =>
      cases hbt : b.tz with
      | none => simp [mergeStep, alignTz, mergeFrames, ha, hat, hbt, hRe, hmm]
      | some z => simp [mergeStep, alignTz, mergeFrames, ha, hat, hbt, hRe, hmm]
    | some z =>
      cases hbt : b.tz with
      | none => simp [mergeStep, alignTz, mergeFrames, ha, hat, hbt, hRe, hmm]
      | some z2 => simp [mergeStep, alignTz, mergeFrames, ha, hat, hbt, hRe, hmm]

/-! ### Sortedness and lookup lemmas -/

theorem dedupRowsLast_sublist : ∀ (l : List Row), List.Sublist (dedupRowsLast l) l
  | [] => List.Sublist.refl []
  | r :: rest => by
      by_cases hm : memTs rest r.ts
      · rw [show dedupRowsLast (r :: rest) = dedupRowsLast rest by
          simp [dedupRowsLast, hm]]
        exact (dedupRowsLast_sublist rest).cons r
      · rw [show dedupRowsLast (r :: rest) = r :: dedupRowsLast rest by
          simp [dedupRowsLast, hm]]
        exact (dedupRowsLast_sublist rest).cons₂ r

theorem sortedTs_cleanRows {f : Frame} (h : sortedTs f.rows) :
    sortedTs (cleanRows f).rows := by
  unfold cleanRows
  split
  · exact List.Pairwise.sublist (dedupRowsLast_sublist f.rows) h
  · exact h

theorem sortedTs_dedupColsFirst {f : Frame} (h : sortedTs f.rows) :
    sortedTs (dedupColsFirst f).rows := by
  show sortedTs (f.rows.map (fun r =>
    { r with vals := applyMask (keepMask [] f.cols) r.vals }))
  unfold sortedTs at h ⊢
  rw [List.pairwise_map]
  exact h

theorem sortedTs_clean {f : Frame} (h : sortedTs f.rows) :
    sortedTs (clean f).rows := by
  have h1 := sortedTs_cleanRows h
  show sortedTs (cleanCols (cleanRows f)).rows
  unfold cleanCols
  split
  · exact sortedTs_dedupColsFirst h1
  · exact h1

theorem findTs_append_of_none : ∀ {l1 : List Row} (l2 : List Row) {t : Int},
    findTs l1 t = none → findTs (l1 ++ l2) t = findTs l2 t
  | [], _, _, _ => rfl
  | r :: l1, l2, t, h => by
      unfold findTs at h ⊢
      rw [List.cons_append]
      simp only [List.find?_cons] at h ⊢
      by_cases hr : (r.ts == t) = true
      · rw [hr] at h
        simp at h
      · have hr2 : (r.ts == t) = false := Bool.not_eq_true _ ▸ hr
        rw [hr2] at h ⊢
        simp only [cond_false] at h ⊢
        exact findTs_append_of_none l2 h

/-- The merged rows are: the cleaned existing rows whose timestamp does not
occur in the cleaned incoming rows, followed by the cleaned incoming rows. -/
theorem reconcile_rows (e n : Frame) :
    (reconcile e n).rows
      = (clean e).rows.filter (fun r => !memTs (clean n).rows r.ts)
        ++ (clean n).rows := by
  show (mergeStep (clean e) (clean n)).rows = _
  rw [mergeStep_rows, dedupRowsLast_append,
      dedupRowsLast_of_noDup (hasDupTs_clean e),
      dedupRowsLast_of_noDup (hasDupTs_clean n)]

/-! ### Claim theorems -/

/-- Claim C9: reconciliation is idempotent — reconciling the result of
`reconcile A B` again with the same incoming frame B yields an archive
identical to `reconcile A B`.  The hypothesis restricts to inputs whose
zones do not disagree, the only situation the code ever merges. -/
theorem c9_reconcile_idempotent (A B : Frame) (_htz : tzCompatB A B = true) :
    reconcile (reconcile A B) B = reconcile A B := by
  unfold reconcile
  rw [clean_mergeStep]
  exact mergeStep_merge_self (clean A) (clean B) (hasDupTs_clean B)

theorem c9_witness :
    reconcile (reconcile ⟨some 330, ["Close"], [⟨10, [1]⟩, ⟨20, [2]⟩]⟩
        ⟨none, ["Close"], [⟨20, [5]⟩, ⟨30, [6]⟩]⟩)
      ⟨none, ["Close"], [⟨20, [5]⟩, ⟨30, [6]⟩]⟩
    = reconcile ⟨some 330, ["Close"], [⟨10, [1]⟩, ⟨20, [2]⟩]⟩
        ⟨none, ["Close"], [⟨20, [5]⟩, ⟨30, [6]⟩]⟩ :=
  c9_reconcile_idempotent
    ⟨some 330, ["Close"], [⟨10, [1]⟩, ⟨20, [2]⟩]⟩
    ⟨none, ["Close"], [⟨20, [5]⟩, ⟨30, [6]⟩]⟩ (by decide)

/-- Claim C2: when a timestamp occurs in both inputs to reconciliation, the
merged result carries the incoming side's row (field values) for that
timestamp — keep-last dedup on `existing ++ incoming` always keeps the
incoming occurrence. -/
theorem c2_reconcile_last_write_wins (e n : Frame) (t : Int)
    (_htz : tzCompatB e n = true)
    (_hte : memTs (clean e).rows t = true)
    (htn : memTs (clean n).rows t = true) :
    findTs (reconcile e n).rows t = findTs (clean n).rows t := by
  rw [reconcile_rows]
  apply findTs_append_of_none
  unfold findTs
  rw [List.find?_eq_none]
  intro x hx
  rw [List.mem_filter] at hx
  intro hbeq
  have hxt : x.ts = t := beq_iff_eq.1 hbeq
  rw [← hxt] at htn
  rw [htn] at hx
  simp at hx

theorem c2_witness :
    findTs (reconcile ⟨none, ["Close"], [⟨1, [100]⟩]⟩
        ⟨none, ["Close"], [⟨1, [105]⟩, ⟨2, [7]⟩]⟩).rows 1
    = findTs (clean ⟨none, ["Close"], [⟨1, [105]⟩, ⟨2, [7]⟩]⟩).rows 1 :=
  c2_reconcile_last_write_wins ⟨none, ["Close"], [⟨1, [100]⟩]⟩
    ⟨none, ["Close"], [⟨1, [105]⟩, ⟨2, [7]⟩]⟩ 1
    (by decide) (by decide) (by decide)

/-- Claim C3, counterexample: the merge never sorts, so when an existing
timestamp not covered by the incoming frame exceeds an incoming timestamp,
the reconciled result is not ascending.  The reconciled rows here are
[ts 2, ts 1]. -/
theorem c3_counterexample :
    (reconcile ⟨none, ["Close"], [⟨2, [0]⟩]⟩
        ⟨none, ["Close"], [⟨1, [9]⟩]⟩).rows = [⟨2, [0]⟩, ⟨1, [9]⟩]
    ∧ ¬ sortedTs (reconcile ⟨none, ["Close"], [⟨2, [0]⟩]⟩
        ⟨none, ["Close"], [⟨1, [9]⟩]⟩).rows := by
  constructor
  · decide
  · decide

/-- Claim C3, amended: the reconciled result never contains duplicate
timestamps, and it is sorted ascending when both inputs are sorted and every
retained existing timestamp precedes every incoming timestamp (the merge
concatenates without sorting). -/
theorem c3_amended_nodup_sorted (e n : Frame)
    (hse : sortedTs e.rows) (hsn : sortedTs n.rows)
    (hsep : ∀ a ∈ (clean e).rows, ∀ b ∈ (clean n).rows,
      memTs (clean n).rows a.ts = false → a.ts < b.ts) :
    hasDupTs (reconcile e n).rows = false ∧ sortedTs (reconcile e n).rows := by
  constructor
  · exact hasDupTs_mergeStep (clean e) (clean n)
  · rw [reconcile_rows]
    unfold sortedTs
    rw [List.pairwise_append]
    refine ⟨?_, sortedTs_clean hsn, ?_⟩
    · exact List.Pairwise.sublist (List.filter_sublist _) (sortedTs_clean hse)
    · intro a ha b hb
      rw [List.mem_filter] at ha
      refine hsep a ha.1 b hb ?_
      have h2 := ha.2
      simp only [Bool.not_eq_true'] at h2
      exact h2

theorem c3_witness :
    hasDupTs (reconcile ⟨none, ["Close"], [⟨1, [3]⟩, ⟨2, [4]⟩]⟩
      ⟨none, ["Close"], [⟨2, [5]⟩, ⟨3, [6]⟩]⟩).rows = false
    ∧ sortedTs (reconcile ⟨none, ["Close"], [⟨1, [3]⟩, ⟨2, [4]⟩]⟩
      ⟨none, ["Close"], [⟨2, [5]⟩, ⟨3, [6]⟩]⟩).rows :=
  c3_amended_nodup_sorted ⟨none, ["Close"], [⟨1, [3]⟩, ⟨2, [4]⟩]⟩
    ⟨none, ["Close"], [⟨2, [5]⟩, ⟨3, [6]⟩]⟩
    (by decide) (by decide) (by decide)

/-- Claim C5: timezone normalization localizes the naive side to the aware
side's zone (never the reverse), changes no row data on either side, and
when both sides already carry zone info it changes nothing at all — in
particular no underlying instant. -/
theorem c5_tz_normalization (e n : Frame) (he : e.rows ≠ []) :
    ((alignTz e n).1.rows = e.rows ∧ (alignTz e n).2.rows = n.rows) ∧
    (∀ z1 z2, e.tz = some z1 → n.tz = some z2 →
      alignTz e n = (e, n) ∧ instantsOf (alignTz e n).1 = instantsOf e ∧
      instantsOf (alignTz e n).2 = instantsOf n) ∧
    (∀ z, e.tz = none → n.tz = some z →
      alignTz e n = ({ e with tz := some z }, n)) ∧
    (∀ z, e.tz = some z → n.tz = none →
      alignTz e n = (e, { n with tz := some z })) := by
  have hee : e.rows.isEmpty = false := isEmpty_false_of_ne_nil he
  refine ⟨⟨alignTz_fst_rows e n, alignTz_snd_rows e n⟩, ?_, ?_, ?_⟩
  · intro z1 z2 h1 h2
    have h3 : alignTz e n = (e, n) := by
      unfold alignTz
      rw [h1, h2]
      simp [hee]
    rw [h3]
    exact ⟨rfl, rfl, rfl⟩
  · intro z h1 h2
    unfold alignTz
    rw [h1, h2]
    simp [hee]
  · intro z h1 h2
    unfold alignTz
    rw [h1, h2]
    simp [hee]

theorem c5_witness :
    alignTz ⟨some 330, ["Close"], [⟨7, [1]⟩]⟩ ⟨none, ["Close"], [⟨8, [2]⟩]⟩
      = (⟨some 330, ["Close"], [⟨7, [1]⟩]⟩,
         { tz := some 330, cols := ["Close"], rows := [⟨8, [2]⟩] }) :=
  (c5_tz_normalization ⟨some 330, ["Close"], [⟨7, [1]⟩]⟩
    ⟨none, ["Close"], [⟨8, [2]⟩]⟩ (by decide)).2.2.2 330 rfl rfl

/-! ### Branch lemmas for the task runner -/

theorem runTask_ok_none_eq (i mp : String) (nu lo : Int)
    (fetch : Req → Except Unit Frame) (fa : Option Nat) (A : Frame)
    (h : ((clean A).rows.getLast?).map Row.ts = none) :
    runTask i mp nu lo fetch fa (some (.ok A))
      = refetchFull i mp fetch fa (some (.ok A)) false := by
  have h1 : loadContent (FileContent.ok A) = (none, clean A, false) := by
    show (((clean A).rows.getLast?).map Row.ts, clean A, false)
      = (none, clean A, false)
    rw [h]
  calc runTask i mp nu lo fetch fa (some (.ok A))
      = dispatchLoaded i mp nu lo fetch fa (some (.ok A))
          (loadContent (.ok A)) := rfl
    _ = dispatchLoaded i mp nu lo fetch fa (some (.ok A))
          (none, clean A, false) := by rw [h1]
    _ = refetchFull i mp fetch fa (some (.ok A)) false := rfl

theorem runTask_ok_coarse_eq (i mp : String) (nu lo : Int)
    (fetch : Req → Except Unit Frame) (fa : Option Nat) (A : Frame) (lt : Int)
    (h : ((clean A).rows.getLast?).map Row.ts = some lt)
    (hc : coarseIntervals.contains i = true) :
    runTask i mp nu lo fetch fa (some (.ok A))
      = coarseUpdate i nu lo fetch fa (some (.ok A)) (clean A) lt := by
  have h1 : loadContent (FileContent.ok A) = (some lt, clean A, false) := by
    show (((clean A).rows.getLast?).map Row.ts, clean A, false)
      = (some lt, clean A, false)
    rw [h]
  calc runTask i mp nu lo fetch fa (some (.ok A))
      = dispatchLoaded i mp nu lo fetch fa (some (.ok A))
          (loadContent (.ok A)) := rfl
    _ = dispatchLoaded i mp nu lo fetch fa (some (.ok A))
          (some lt, clean A, false) := by rw [h1]
    _ = if coarseIntervals.contains i then
          coarseUpdate i nu lo fetch fa (some (.ok A)) (clean A) lt
        else rollingUpdate i mp fetch fa (some (.ok A)) (clean A) := rfl
    _ = coarseUpdate i nu lo fetch fa (some (.ok A)) (clean A) lt := by
          rw [hc]; simp

theorem runTask_ok_intraday_eq (i mp : String) (nu lo : Int)
    (fetch : Req → Except Unit Frame) (fa : Option Nat) (A : Frame) (lt : Int)
    (h : ((clean A).rows.getLast?).map Row.ts = some lt)
    (hc : coarseIntervals.contains i = false) :
    runTask i mp nu lo fetch fa (some (.ok A))
      = rollingUpdate i mp fetch fa (some (.ok A)) (clean A) := by
  have h1 : loadContent (FileContent.ok A) = (some lt, clean A, false) := by
    show (((clean A).rows.getLast?).map Row.ts, clean A, false)
      = (some lt, clean A, false)
    rw [h]
  calc runTask i mp nu lo fetch fa (some (.ok A))
      = dispatchLoaded i mp nu lo fetch fa (some (.ok A))
          (loadContent (.ok A)) := rfl
    _ = dispatchLoaded i mp nu lo fetch fa (some (.ok A))
          (some lt, clean A, false) := by rw [h1]
    _ = if coarseIntervals.contains i then
          coarseUpdate i nu lo fetch fa (some (.ok A)) (clean A) lt
        else rollingUpdate i mp fetch fa (some (.ok A)) (clean A) := rfl
    _ = rollingUpdate i mp fetch fa (some (.ok A)) (clean A) := by
          rw [hc]; simp

/-- Claim C4, amended: for a coarse interval with a non-empty archive, the
engine issues the bounded fetch from `lastStoredTimestamp + 1 day` exactly
when that start is STRICTLY before now in the stored timestamp's timezone;
otherwise (start equal to now or later) it performs no fetch and no write. -/
theorem c4_amended_strict_gate (interval maxPeriod : String) (nowUtc localOff : Int)
    (fetch : Req → Except Unit Frame) (failAt : Option Nat) (A : Frame) (lt : Int)
    (hlast : ((clean A).rows.getLast?).map Row.ts = some lt)
    (hcoarse : coarseIntervals.contains interval = true) :
    (lt + oneDay < nowUtc + ((clean A).tz.getD localOff) →
      (runTask interval maxPeriod nowUtc localOff fetch failAt (some (.ok A))).reqs
        = [Req.startQuery (lt + oneDay) interval]) ∧
    (¬ lt + oneDay < nowUtc + ((clean A).tz.getD localOff) →
      runTask interval maxPeriod nowUtc localOff fetch failAt (some (.ok A))
        = { file := some (.ok A), reqs := [], reported := false,
            raised := false }) := by
  rw [runTask_ok_coarse_eq interval maxPeriod nowUtc localOff fetch failAt A lt
    hlast hcoarse]
  constructor
  · intro hlt
    unfold coarseUpdate
    rw [if_pos hlt]
    cases hfr : fetch (Req.startQuery (lt + oneDay) interval) with
    | error e => rfl
    | ok nd =>
        by_cases hne : nd.rows.isEmpty
        · simp [hne]
        · simp [hne]
  · intro hlt
    unfold coarseUpdate
    rw [if_neg hlt]

def c4fetch : Req → Except Unit Frame :=
  fun _ => Except.ok ⟨none, ["Close"], [⟨oneDay, [2]⟩]⟩

theorem c4_amended_witness :
    (runTask "1d" "max" (2 * oneDay) 0 c4fetch none
      (some (.ok ⟨none, ["Close"], [⟨0, [1]⟩]⟩))).reqs
    = [Req.startQuery (0 + oneDay) "1d"] :=
  (c4_amended_strict_gate "1d" "max" (2 * oneDay) 0 c4fetch none
    ⟨none, ["Close"], [⟨0, [1]⟩]⟩ 0 (by decide) (by decide)).1 (by decide)

/-- Claim C4, counterexample: when `requestStart` equals "now" it is not
strictly in the future, so the claim requires a fetch, but the code's
strict `<` comparison skips it: no request is issued. -/
theorem c4_counterexample :
    (runTask "1d" "max" oneDay 0 c4fetch none
      (some (.ok ⟨none, ["Close"], [⟨0, [1]⟩]⟩))).reqs = []
    ∧ (0 : Int) + oneDay ≤ oneDay + 0 := by
  constructor
  · decide
  · decide

/-- Claim C6: if the provider fetch fails, the task leaves the persisted
archive unchanged, never lets the exception escape the task boundary (so no
sibling task can be aborted), and — whenever a request was actually made —
reports the failure. -/
theorem c6_fetch_failure_isolated (interval maxPeriod : String)
    (nowUtc localOff : Int) (failAt : Option Nat) (file : Option FileContent)
    (fetch : Req → Except Unit Frame) (hf : ∀ r, fetch r = .error ()) :
    (runTask interval maxPeriod nowUtc localOff fetch failAt file).file = file ∧
    (runTask interval maxPeriod nowUtc localOff fetch failAt file).raised = false ∧
    ((runTask interval maxPeriod nowUtc localOff fetch failAt file).reqs ≠ [] →
      (runTask interval maxPeriod nowUtc localOff fetch failAt file).reported
        = true) := by
  cases file with
  | none =>
      have h0 : runTask interval maxPeriod nowUtc localOff fetch failAt none
          = firstFetch interval maxPeriod fetch failAt := rfl
      rw [h0]
      unfold firstFetch
      rw [hf]
      exact ⟨rfl, rfl, fun _ => rfl⟩
  | some content =>
      cases content with
      | corrupt =>
          have h0 : runTask interval maxPeriod nowUtc localOff fetch failAt
              (some .corrupt)
              = refetchFull interval maxPeriod fetch failAt
                  (some .corrupt) true := rfl
          rw [h0]
          unfold refetchFull
          rw [hf]
          exact ⟨rfl, rfl, fun _ => rfl⟩
      | ok df =>
          cases hlast : ((clean df).rows.getLast?).map Row.ts with
          | none =>
              rw [runTask_ok_none_eq interval maxPeriod nowUtc localOff fetch
                failAt df hlast]
              unfold refetchFull
              rw [hf]
              exact ⟨rfl, rfl, fun _ => rfl⟩
          | some lt =>
              by_cases hc : coarseIntervals.contains interval
              · rw [runTask_ok_coarse_eq interval maxPeriod nowUtc localOff fetch
                  failAt df lt hlast hc]
                unfold coarseUpdate
                by_cases hcmp : lt + oneDay < nowUtc + ((clean df).tz.getD localOff)
                · rw [if_pos hcmp, hf]
                  exact ⟨rfl, rfl, fun _ => rfl⟩
                · rw [if_neg hcmp]
                  exact ⟨rfl, rfl, fun h => absurd rfl h⟩
              · have hc2 : coarseIntervals.contains interval = false :=
                  Bool.not_eq_true _ ▸ hc
                rw [runTask_ok_intraday_eq interval maxPeriod nowUtc localOff fetch
                  failAt df lt hlast hc2]
                unfold rollingUpdate
                rw [hf]
                exact ⟨rfl, rfl, fun _ => rfl⟩

theorem c6_witness :
    (runTask "1m" "7d" 0 0 (fun _ => Except.error ()) none
      (some (.ok ⟨none, ["Close"], [⟨3, [1]⟩]⟩))).file
      = some (.ok ⟨none, ["Close"], [⟨3, [1]⟩]⟩)
    ∧ (runTask "1m" "7d" 0 0 (fun _ => Except.error ()) none
      (some (.ok ⟨none, ["Close"], [⟨3, [1]⟩]⟩))).raised = false
    ∧ (runTask "1m" "7d" 0 0 (fun _ => Except.error ()) none
      (some (.ok ⟨none, ["Close"], [⟨3, [1]⟩]⟩))).reported = true :=
  ⟨(c6_fetch_failure_isolated "1m" "7d" 0 0 none
      (some (.ok ⟨none, ["Close"], [⟨3, [1]⟩]⟩)) _ (fun _ => rfl)).1,
   (c6_fetch_failure_isolated "1m" "7d" 0 0 none
      (some (.ok ⟨none, ["Close"], [⟨3, [1]⟩]⟩)) _ (fun _ => rfl)).2.1,
   (c6_fetch_failure_isolated "1m" "7d" 0 0 none
      (some (.ok ⟨none, ["Close"], [⟨3, [1]⟩]⟩)) _ (fun _ => rfl)).2.2
     (by decide)⟩

def c7fetch : Req → Except Unit Frame :=
  fun _ => Except.ok ⟨none, ["Close"], [⟨86400, [2]⟩, ⟨172800, [3]⟩]⟩

/-- Claim C7, counterexample: the save is a plain in-place overwrite
(`to_csv`), not stage-then-replace.  A write that fails after two rows
leaves a file that is neither the previous good archive (one row, close 1)
nor the intended merged archive (three rows): a partially written file is
visible and the previous good file is gone. -/
theorem c7_counterexample :
    (runTask "1d" "max" (3 * oneDay) 0 c7fetch (some 2)
        (some (.ok ⟨none, ["Close"], [⟨0, [1]⟩]⟩))).file
      = some (.ok ⟨none, ["Close"], [⟨0, [1]⟩, ⟨86400, [2]⟩]⟩)
    ∧ some (FileContent.ok ⟨none, ["Close"], [⟨0, [1]⟩, ⟨86400, [2]⟩]⟩)
        ≠ some (FileContent.ok ⟨none, ["Close"], [⟨0, [1]⟩]⟩)
    ∧ some (FileContent.ok ⟨none, ["Close"], [⟨0, [1]⟩, ⟨86400, [2]⟩]⟩)
        ≠ some (FileContent.ok
            ⟨none, ["Close"], [⟨0, [1]⟩, ⟨86400, [2]⟩, ⟨172800, [3]⟩]⟩)
    ∧ (runTask "1d" "max" (3 * oneDay) 0 c7fetch (some 2)
        (some (.ok ⟨none, ["Close"], [⟨0, [1]⟩]⟩))).reported = true := by
  refine ⟨by decide, by decide, by decide, by decide⟩

/-- Claim C7, amended: the save overwrites the archive file in place with
no staging step.  If the write fails after k complete rows, the visible
file holds exactly the first k rows of the merged content — the previous
good content is destroyed — and the failure is reported inside the task. -/
theorem c7_amended_in_place_overwrite (interval maxPeriod : String)
    (nowUtc localOff : Int) (fetch : Req → Except Unit Frame) (k : Nat)
    (A nd : Frame) (lt : Int)
    (hlast : ((clean A).rows.getLast?).map Row.ts = some lt)
    (hcoarse : coarseIntervals.contains interval = true)
    (hcmp : lt + oneDay < nowUtc + ((clean A).tz.getD localOff))
    (hfetch : fetch (Req.startQuery (lt + oneDay) interval) = Except.ok nd)
    (hne : nd.rows.isEmpty = false) :
    runTask interval maxPeriod nowUtc localOff fetch (some k) (some (.ok A))
      = { file := some (.ok { mergeStep (clean A) (clean nd) with
              rows := (mergeStep (clean A) (clean nd)).rows.take k }),
          reqs := [Req.startQuery (lt + oneDay) interval],
          reported := true, raised := false } := by
  rw [runTask_ok_coarse_eq interval maxPeriod nowUtc localOff fetch (some k) A lt
    hlast hcoarse]
  unfold coarseUpdate
  rw [if_pos hcmp, hfetch]
  simp [hne, csvWriteInPlace]

theorem c7_amended_witness :
    runTask "1d" "max" (3 * oneDay) 0 c7fetch (some 2)
      (some (.ok ⟨none, ["Close"], [⟨0, [1]⟩]⟩))
    = { file := some (.ok { mergeStep
            (clean ⟨none, ["Close"], [⟨0, [1]⟩]⟩)
            (clean ⟨none, ["Close"], [⟨86400, [2]⟩, ⟨172800, [3]⟩]⟩) with
          rows := (mergeStep
            (clean ⟨none, ["Close"], [⟨0, [1]⟩]⟩)
            (clean ⟨none, ["Close"], [⟨86400, [2]⟩, ⟨172800, [3]⟩]⟩)).rows.take 2 }),
        reqs := [Req.startQuery (0 + oneDay) "1d"],
        reported := true, raised := false } :=
  c7_amended_in_place_overwrite "1d" "max" (3 * oneDay) 0 c7fetch 2
    ⟨none, ["Close"], [⟨0, [1]⟩]⟩ ⟨none, ["Close"], [⟨86400, [2]⟩, ⟨172800, [3]⟩]⟩
    0 (by decide) (by decide) (by decide) rfl (by decide)

def c8fetch : Req → Except Unit Frame :=
  fun _ => Except.ok ⟨none, ["Close"], [⟨5, [2]⟩]⟩

/-- Claim C8, counterexample: a failing archive write is caught inside the
task (`raised = false`), merely printed (`reported = true`); it is absorbed
by the per-interval `try/except`, never handed to the task's caller as a
task failure. -/
theorem c8_counterexample :
    (runTask "1m" "7d" 0 0 c8fetch (some 0)
        (some (.ok ⟨none, ["Close"], [⟨3, [1]⟩]⟩))).raised = false
    ∧ (runTask "1m" "7d" 0 0 c8fetch (some 0)
        (some (.ok ⟨none, ["Close"], [⟨3, [1]⟩]⟩))).reported = true
    ∧ (runTask "1m" "7d" 0 0 c8fetch (some 0)
        (some (.ok ⟨none, ["Close"], [⟨3, [1]⟩]⟩))).file
      = some (.ok ⟨none, ["Close"], []⟩) := by
  refine ⟨by decide, by decide, by decide⟩

/-- Claim C8, amended: a write failure never escapes the task — the task
never raises to its caller; whenever the write oracle fails, either no save
was attempted (the archive file is unchanged) or the failure was reported
to the console. -/
theorem c8_amended_write_failure_absorbed (interval maxPeriod : String)
    (nowUtc localOff : Int) (fetch : Req → Except Unit Frame)
    (failAt : Option Nat) (file : Option FileContent) (k : Nat)
    (hk : failAt = some k) :
    (runTask interval maxPeriod nowUtc localOff fetch failAt file).raised = false ∧
    ((runTask interval maxPeriod nowUtc localOff fetch failAt file).file = file ∨
      (runTask interval maxPeriod nowUtc localOff fetch failAt file).reported
        = true) := by
  subst hk
  cases file with
  | none =>
      have h0 : runTask interval maxPeriod nowUtc localOff fetch (some k) none
          = firstFetch interval maxPeriod fetch (some k) := rfl
      rw [h0]
      unfold firstFetch
      cases hfr : fetch (Req.periodQuery maxPeriod interval) with
      | error e => exact ⟨by trivial, Or.inl (by trivial)⟩
      | ok data =>
          dsimp only
          by_cases hne : data.rows.isEmpty
          · rw [if_pos hne]
            exact ⟨by trivial, Or.inl (by trivial)⟩
          · rw [if_neg hne]
            exact ⟨by trivial, Or.inr (by trivial)⟩
  | some content =>
      cases content with
      | corrupt =>
          have h0 : runTask interval maxPeriod nowUtc localOff fetch (some k)
              (some .corrupt)
              = refetchFull interval maxPeriod fetch (some k)
                  (some .corrupt) true := rfl
          rw [h0]
          unfold refetchFull
          cases hfr : fetch (Req.periodQuery maxPeriod interval) with
          | error e => exact ⟨by trivial, Or.inl (by trivial)⟩
          | ok data =>
              dsimp only
              by_cases hne : data.rows.isEmpty
              · rw [if_pos hne]
                exact ⟨by trivial, Or.inl (by trivial)⟩
              · rw [if_neg hne]
                exact ⟨by trivial, Or.inr (by trivial)⟩
      | ok df =>
          cases hlast : ((clean df).rows.getLast?).map Row.ts with
          | none =>
              rw [runTask_ok_none_eq interval maxPeriod nowUtc localOff fetch
                (some k) df hlast]
              unfold refetchFull
              cases hfr : fetch (Req.periodQuery maxPeriod interval) with
              | error e => exact ⟨by trivial, Or.inl (by trivial)⟩
              | ok data =>
                  by_cases hne : data.rows.isEmpty
                  · simp only [hne, if_true]
                    exact ⟨by trivial, Or.inl (by trivial)⟩
                  · simp only [hne, if_false]
                    exact ⟨by trivial, Or.inr (by trivial)⟩
          | some lt =>
              by_cases hc : coarseIntervals.contains interval
              · rw [runTask_ok_coarse_eq interval maxPeriod nowUtc localOff fetch
                  (some k) df lt hlast hc]
                unfold coarseUpdate
                by_cases hcmp : lt + oneDay < nowUtc + ((clean df).tz.getD localOff)
                · rw [if_pos hcmp]
                  cases hfr : fetch (Req.startQuery (lt + oneDay) interval) with
                  | error e => exact ⟨by trivial, Or.inl (by trivial)⟩
                  | ok nd =>
                      dsimp only
                      by_cases hne : nd.rows.isEmpty
                      · rw [if_pos hne]
                        exact ⟨by trivial, Or.inl (by trivial)⟩
                      · rw [if_neg hne]
                        exact ⟨by trivial, Or.inr (by trivial)⟩
                · rw [if_neg hcmp]
                  exact ⟨by trivial, Or.inl (by trivial)⟩
              · have hc2 : coarseIntervals.contains interval = false :=
                  Bool.not_eq_true _ ▸ hc
                rw [runTask_ok_intraday_eq interval maxPeriod nowUtc localOff fetch
                  (some k) df lt hlast hc2]
                unfold rollingUpdate
                cases hfr : fetch (Req.periodQuery maxPeriod interval) with
                | error e => exact ⟨by trivial, Or.inl (by trivial)⟩
                | ok nd =>
                    dsimp only
                    by_cases hne : nd.rows.isEmpty
                    · rw [if_pos hne]
                      exact ⟨by trivial, Or.inl (by trivial)⟩
                    · rw [if_neg hne]
                      exact ⟨by trivial, Or.inr (by trivial)⟩

theorem c8_amended_witness :
    (runTask "1m" "7d" 0 0 c8fetch (some 0)
        (some (.ok ⟨none, ["Close"], [⟨3, [1]⟩]⟩))).raised = false
    ∧ ((runTask "1m" "7d" 0 0 c8fetch (some 0)
        (some (.ok ⟨none, ["Close"], [⟨3, [1]⟩]⟩))).file
          = some (.ok ⟨none, ["Close"], [⟨3, [1]⟩]⟩)
      ∨ (runTask "1m" "7d" 0 0 c8fetch (some 0)
        (some (.ok ⟨none, ["Close"], [⟨3, [1]⟩]⟩))).reported = true) :=
  c8_amended_write_failure_absorbed "1m" "7d" 0 0 c8fetch (some 0)
    (some (.ok ⟨none, ["Close"], [⟨3, [1]⟩]⟩)) 0 rfl

/-- Claim C10: a file that parses but holds zero Bars routes to the
refetch branch — one maximum-period request; an empty response leaves the
file unchanged; a non-empty response overwrites the file with the cleaned
response (duplicate timestamps dropped keeping the last, duplicate columns
dropped). -/
theorem c10_empty_archive_refetch (interval maxPeriod : String)
    (nowUtc localOff : Int) (fetch : Req → Except Unit Frame) (ef : Frame)
    (he : ef.rows = []) :
    (runTask interval maxPeriod nowUtc localOff fetch none (some (.ok ef))).reqs
      = [Req.periodQuery maxPeriod interval] ∧
    (∀ d, fetch (Req.periodQuery maxPeriod interval) = Except.ok d →
      d.rows = [] →
      runTask interval maxPeriod nowUtc localOff fetch none (some (.ok ef))
        = { file := some (.ok ef), reqs := [Req.periodQuery maxPeriod interval],
            reported := false, raised := false }) ∧
    (∀ d, fetch (Req.periodQuery maxPeriod interval) = Except.ok d →
      d.rows ≠ [] →
      (runTask interval maxPeriod nowUtc localOff fetch none
          (some (.ok ef))).file
        = some (.ok (clean d))) := by
  have h1 : cleanRows ef = ef := cleanRows_eq_self (by rw [he]; rfl)
  have hcr : (clean ef).rows = [] := by
    show (cleanCols (cleanRows ef)).rows = []
    rw [h1]
    unfold cleanCols
    split
    · show ef.rows.map _ = []
      rw [he]
      rfl
    · exact he
  have hlast : ((clean ef).rows.getLast?).map Row.ts = none := by
    rw [hcr]
    rfl
  rw [runTask_ok_none_eq interval maxPeriod nowUtc localOff fetch none ef hlast]
  refine ⟨?_, ?_, ?_⟩
  · unfold refetchFull
    cases hfr : fetch (Req.periodQuery maxPeriod interval) with
    | error e => rfl
    | ok d =>
        dsimp only
        by_cases hne : d.rows.isEmpty
        · rw [if_pos hne]
        · rw [if_neg hne]
  · intro d hd hde
    unfold refetchFull
    rw [hd]
    dsimp only
    rw [if_pos (show d.rows.isEmpty = true by rw [hde]; rfl)]
  · intro d hd hde
    unfold refetchFull
    rw [hd]
    dsimp only
    rw [if_neg (show ¬ d.rows.isEmpty = true by
      rw [isEmpty_false_of_ne_nil hde]; exact Bool.false_ne_true)]
    rfl

def c10fetch : Req → Except Unit Frame :=
  fun _ => Except.ok ⟨none, ["Close"], [⟨5, [2]⟩, ⟨5, [3]⟩]⟩

theorem c10_witness :
    (runTask "1m" "7d" 0 0 c10fetch none
        (some (.ok ⟨none, ["Close"], []⟩))).file
      = some (.ok (clean ⟨none, ["Close"], [⟨5, [2]⟩, ⟨5, [3]⟩]⟩)) :=
  (c10_empty_archive_refetch "1m" "7d" 0 0 c10fetch
    ⟨none, ["Close"], []⟩ rfl).2.2
    ⟨none, ["Close"], [⟨5, [2]⟩, ⟨5, [3]⟩]⟩ rfl (by decide)

def c1fetch : Req → Except Unit Frame :=
  fun _ => Except.ok ⟨none, ["Close"], [⟨1, [10]⟩, ⟨1, [11]⟩]⟩

/-- Claim C1, failing run: with no existing file, the first-time-fetch
branch saves the provider response verbatim — unlike every other branch it
never applies the keep-last duplicate drop, so a response carrying two Bars
with equal timestamps is persisted with the duplicate intact. -/
theorem c1_first_fetch_keeps_duplicates :
    (runTask "1d" "max" 0 0 c1fetch none none).file
      = some (.ok ⟨none, ["Close"], [⟨1, [10]⟩, ⟨1, [11]⟩]⟩)
    ∧ hasDupTs [(⟨1, [10]⟩ : Row), ⟨1, [11]⟩] = true := by
  refine ⟨by decide, by decide⟩
